import Mathlib

/-!
Verification of the sovereign-rollup sequencer against its specification.

The development shallowly embeds four components: the sequencer-registry
module (from `sov-sequencer-registry/src/lib.rs`), the block producer loop,
the commitment controller, and the mempool batch selection. State maps are
embedded as association lists, bank balances as an association list keyed by
token and address, and fallible calls return `Except`.
-/

namespace RollupSpec

/-! ## Association-list helpers (embedding of `StateMap`) -/

def lookupAL {α β : Type} [DecidableEq α] : List (α × β) → α → Option β
  | [], _ => none
  | (k, v) :: rest, a => if k = a then some v else lookupAL rest a

def setAL {α β : Type} [DecidableEq α] : List (α × β) → α → β → List (α × β)
  | [], a, b => [(a, b)]
  | (k, v) :: rest, a, b => if k = a then (a, b) :: rest else (k, v) :: setAL rest a b

def removeAL {α β : Type} [DecidableEq α] : List (α × β) → α → List (α × β)
  | [], _ => []
  | (k, v) :: rest, a => if k = a then removeAL rest a else (k, v) :: removeAL rest a

theorem lookupAL_setAL_self {α β : Type} [DecidableEq α] (l : List (α × β)) (a : α) (b : β) :
    lookupAL (setAL l a b) a = some b := by
  induction l with
  | nil => simp [setAL, lookupAL]
  | cons kv rest ih =>
    obtain ⟨k, v⟩ := kv
    by_cases h : k = a
    · simp [setAL, lookupAL, h]
    · simp [setAL, lookupAL, h, ih]

theorem lookupAL_setAL_ne {α β : Type} [DecidableEq α] (l : List (α × β)) (a c : α) (b : β)
    (h : c ≠ a) : lookupAL (setAL l a b) c = lookupAL l c := by
  induction l with
  | nil => simp [setAL, lookupAL, Ne.symm h]
  | cons kv rest ih =>
    obtain ⟨k, v⟩ := kv
    by_cases hk : k = a
    · subst hk
      simp [setAL, lookupAL, Ne.symm h]
    · simp [setAL, lookupAL, hk, ih]

theorem lookupAL_removeAL_self {α β : Type} [DecidableEq α] (l : List (α × β)) (a : α) :
    lookupAL (removeAL l a) a = none := by
  induction l with
  | nil => simp [removeAL, lookupAL]
  | cons kv rest ih =>
    obtain ⟨k, v⟩ := kv
    by_cases h : k = a <;> simp [removeAL, lookupAL, h, ih]

theorem lookupAL_removeAL_ne {α β : Type} [DecidableEq α] (l : List (α × β)) (a c : α)
    (h : c ≠ a) : lookupAL (removeAL l a) c = lookupAL l c := by
  induction l with
  | nil => simp [removeAL]
  | cons kv rest ih =>
    obtain ⟨k, v⟩ := kv
    by_cases hk : k = a
    · subst hk
      simp [removeAL, lookupAL, Ne.symm h, ih]
    · simp [removeAL, lookupAL, hk, ih]

/-! ## Sequencer registry (`sov-sequencer-registry/src/lib.rs`) -/

/-- The DA-layer address type (`Da::Address`). -/
abbrev DaAddress := Nat

/-- The rollup-chain address type (`C::Address`). -/
abbrev RollupAddress := Nat

/-- `sov_bank::Coins`: an amount of a given token. -/
structure Coins where
  amount : Nat
  token_address : Nat
deriving DecidableEq, Repr

/-- Bank balances, keyed by token address and account address. -/
abbrev Bank := List ((Nat × RollupAddress) × Nat)

/-- Balance of `addr` in token `token` (absent accounts hold zero). -/
def getBalance (b : Bank) (token : Nat) (addr : RollupAddress) : Nat :=
  (lookupAL b (token, addr)).getD 0

/-- Modelled from the spec: `sov_bank::Bank::transfer_from` (crate sov-bank is
not under src/). Per the spec it "transfers the configured bond from the
caller's rollup-chain balance into the registry's locked balance"; the error
taxonomy lists insufficient bond as a rejected-call error, so the transfer
fails when the source balance does not cover the amount. -/
def transfer_from (b : Bank) (src dst : RollupAddress) (coins : Coins) : Option Bank :=
  let srcBal := getBalance b coins.token_address src
  if coins.amount ≤ srcBal then
    let b1 := setAL b (coins.token_address, src) (srcBal - coins.amount)
    some (setAL b1 (coins.token_address, dst)
      (getBalance b1 coins.token_address dst + coins.amount))
  else none

/-- The state carried by the `SequencerRegistry` module together with the bank
state it acts on: the module address, the `allowed_sequencers` state map, the
optional `preferred_sequencer` state value, the `coins_to_lock` state value,
and the bank balances. -/
structure RegistryState where
  address : RollupAddress
  allowed_sequencers : List (DaAddress × RollupAddress)
  preferred_sequencer : Option DaAddress
  coins_to_lock : Option Coins
  bank : Bank
deriving DecidableEq, Repr

/-- Typed rejection reasons of registry calls (the Rust code surfaces them as
`anyhow` errors; the spec names them `AlreadyRegistered`, `NotRegistered`,
`Unauthorized`, insufficient bond). -/
inductive RegistryError where
  | AlreadyRegistered
  | MissingCoinsToLock
  | InsufficientFunds
  | NotRegistered
  | Unauthorized
deriving DecidableEq, Repr

/-- `SequencerRegistry::register_sequencer`: rejects an already registered DA
address, otherwise transfers the configured `coins_to_lock` from the rollup
address to the module address and inserts the mapping. -/
def register_sequencer (st : RegistryState) (da_address : DaAddress)
    (rollup_address : RollupAddress) : Except RegistryError RegistryState :=
  if (lookupAL st.allowed_sequencers da_address).isSome then
    .error .AlreadyRegistered
  else
    match st.coins_to_lock with
    | none => .error .MissingCoinsToLock
    | some coins =>
      match transfer_from st.bank rollup_address st.address coins with
      | none => .error .InsufficientFunds
      | some b2 =>
        .ok { st with bank := b2,
                      allowed_sequencers :=
                        setAL st.allowed_sequencers da_address rollup_address }

/-- Modelled from the spec: the `register` call handler (call.rs is not under
src/) forwards the DA address and the caller rollup address from the call
context to `register_sequencer`. -/
def registerCall (st : RegistryState) (da_address : DaAddress)
    (sender : RollupAddress) : Except RegistryError RegistryState :=
  register_sequencer st da_address sender

/-- Modelled from the spec: the `exit` call handler (call.rs is not under
src/). Per the spec it "fails if `da_address` has no mapping (`NotRegistered`)
or if the caller is not the registered owner (`Unauthorized`); on success,
returns the bond and removes the mapping". -/
def exitCall (st : RegistryState) (da_address : DaAddress)
    (sender : RollupAddress) : Except RegistryError RegistryState :=
  match lookupAL st.allowed_sequencers da_address with
  | none => .error .NotRegistered
  | some owner =>
    if owner = sender then
      match st.coins_to_lock with
      | none => .error .MissingCoinsToLock
      | some coins =>
        match transfer_from st.bank st.address sender coins with
        | none => .error .InsufficientFunds
        | some b2 =>
          .ok { st with bank := b2,
                        allowed_sequencers := removeAL st.allowed_sequencers da_address }
    else .error .Unauthorized

/-- The two registry call messages. -/
inductive CallMessage where
  | Register (da_address : DaAddress)
  | Exit (da_address : DaAddress)
deriving DecidableEq, Repr

/-- `Module::call` for the registry: dispatches `Register` to the register
handler and `Exit` to the exit handler, with the caller taken from the call
context. -/
def call (st : RegistryState) (sender : RollupAddress) (message : CallMessage) :
    Except RegistryError RegistryState :=
  match message with
  | .Register da_address => registerCall st da_address sender
  | .Exit da_address => exitCall st da_address sender

/-- Transaction-level semantics of a call: a rejected call leaves the state
untouched (the working set of a failed call is reverted) and surfaces the
error. -/
def applyCall (st : RegistryState) (sender : RollupAddress) (message : CallMessage) :
    RegistryState × Option RegistryError :=
  match call st sender message with
  | .ok st2 => (st2, none)
  | .error e => (st, some e)

/-- `SequencerRegistry::is_sender_allowed`: whether `sender` has an
`allowed_sequencers` entry. -/
def is_sender_allowed (st : RegistryState) (sender : DaAddress) : Bool :=
  (lookupAL st.allowed_sequencers sender).isSome

/-- `SequencerRegistry::get_preferred_sequencer`. -/
def get_preferred_sequencer (st : RegistryState) : Option DaAddress :=
  st.preferred_sequencer

/-- `SequencerRegistry::get_preferred_sequencer_rollup_address`: maps the
preferred sequencer through `allowed_sequencers`; the `expect` on a missing
entry is embedded as an `Except.error` carrying the panic message. -/
def get_preferred_sequencer_rollup_address (st : RegistryState) :
    Except String (Option RollupAddress) :=
  match st.preferred_sequencer with
  | none => .ok none
  | some da_addr =>
    match lookupAL st.allowed_sequencers da_addr with
    | some rollup => .ok (some rollup)
    | none => .error "Preferred Sequencer must have known address on rollup"

/-! ## Registry lemmas -/

theorem transfer_from_eq (B : Bank) (x y : RollupAddress) (c : Coins) (b1 : Bank)
    (h : transfer_from B x y c = some b1) :
    c.amount ≤ getBalance B c.token_address x ∧
    b1 = setAL (setAL B (c.token_address, x) (getBalance B c.token_address x - c.amount))
          (c.token_address, y)
          (getBalance (setAL B (c.token_address, x)
            (getBalance B c.token_address x - c.amount)) c.token_address y + c.amount) := by
  unfold transfer_from at h
  by_cases hle : c.amount ≤ getBalance B c.token_address x
  · simp only [hle, if_pos] at h
    exact ⟨hle, (Option.some.inj h).symm⟩
  · simp [hle] at h

theorem getBalance_setAL_self (B : Bank) (tok : Nat) (a : RollupAddress) (v : Nat) :
    getBalance (setAL B (tok, a) v) tok a = v := by
  simp [getBalance, lookupAL_setAL_self]

theorem getBalance_setAL_ne (B : Bank) (tok tok2 : Nat) (a a2 : RollupAddress) (v : Nat)
    (h : (tok2, a2) ≠ (tok, a)) :
    getBalance (setAL B (tok, a) v) tok2 a2 = getBalance B tok2 a2 := by
  simp [getBalance, lookupAL_setAL_ne _ _ _ _ h]

/-- A successful bank transfer followed by the reverse transfer of the same
coins restores the balance of the original source in every token. -/
theorem transfer_from_roundtrip (B : Bank) (x y : RollupAddress) (c : Coins)
    (b1 b2 : Bank) (h1 : transfer_from B x y c = some b1)
    (h2 : transfer_from b1 y x c = some b2) (tok : Nat) :
    getBalance b2 tok x = getBalance B tok x := by
  obtain ⟨hle1, hb1⟩ := transfer_from_eq _ _ _ _ _ h1
  obtain ⟨hle2, hb2⟩ := transfer_from_eq _ _ _ _ _ h2
  by_cases htok : tok = c.token_address
  · rw [htok]
    by_cases hxy : x = y
    · subst hxy
      have e1 : getBalance b1 c.token_address x = getBalance B c.token_address x := by
        rw [hb1, getBalance_setAL_self, getBalance_setAL_self, Nat.sub_add_cancel hle1]
      rw [hb2, getBalance_setAL_self, getBalance_setAL_self, e1,
        Nat.sub_add_cancel hle1]
    · have hne : ((c.token_address, x) : Nat × RollupAddress) ≠ (c.token_address, y) := by
        simp [Prod.ext_iff, hxy]
      rw [hb2, getBalance_setAL_self, getBalance_setAL_ne _ _ _ _ _ _ hne,
        hb1, getBalance_setAL_ne _ _ _ _ _ _ hne, getBalance_setAL_self,
        Nat.sub_add_cancel hle1]
  · have hnex : ((tok, x) : Nat × RollupAddress) ≠ (c.token_address, x) := by
      simp [Prod.ext_iff, htok]
    have hney : ((tok, x) : Nat × RollupAddress) ≠ (c.token_address, y) := by
      simp [Prod.ext_iff, htok]
    rw [hb2, getBalance_setAL_ne _ _ _ _ _ _ hnex, getBalance_setAL_ne _ _ _ _ _ _ hney,
      hb1, getBalance_setAL_ne _ _ _ _ _ _ hney, getBalance_setAL_ne _ _ _ _ _ _ hnex]

/-- Inversion of a successful `Register` call. -/
theorem applyCall_register_ok (st st1 : RegistryState) (sender : RollupAddress)
    (da : DaAddress) (h : applyCall st sender (.Register da) = (st1, none)) :
    lookupAL st.allowed_sequencers da = none ∧
    ∃ coins b1, st.coins_to_lock = some coins ∧
      transfer_from st.bank sender st.address coins = some b1 ∧
      st1 = { st with bank := b1,
                      allowed_sequencers := setAL st.allowed_sequencers da sender } := by
  unfold applyCall call registerCall register_sequencer at h
  cases hlk : lookupAL st.allowed_sequencers da with
  | some v => simp [hlk] at h
  | none =>
    cases hc : st.coins_to_lock with
    | none => simp [hlk, hc] at h
    | some coins =>
      cases ht : transfer_from st.bank sender st.address coins with
      | none => simp [hlk, hc, ht] at h
      | some b1 =>
        simp [hlk, hc, ht] at h
        exact ⟨rfl, coins, b1, rfl, ht, h.symm⟩

/-- Inversion of a successful `Exit` call. -/
theorem applyCall_exit_ok (st st1 : RegistryState) (sender : RollupAddress)
    (da : DaAddress) (h : applyCall st sender (.Exit da) = (st1, none)) :
    lookupAL st.allowed_sequencers da = some sender ∧
    ∃ coins b1, st.coins_to_lock = some coins ∧
      transfer_from st.bank st.address sender coins = some b1 ∧
      st1 = { st with bank := b1,
                      allowed_sequencers := removeAL st.allowed_sequencers da } := by
  unfold applyCall call exitCall at h
  cases hlk : lookupAL st.allowed_sequencers da with
  | none => simp [hlk] at h
  | some owner =>
    by_cases hown : owner = sender
    · subst hown
      cases hc : st.coins_to_lock with
      | none => simp [hlk, hc] at h
      | some coins =>
        cases ht : transfer_from st.bank st.address owner coins with
        | none => simp [hlk, hc, ht] at h
        | some b1 =>
          simp [hlk, hc, ht] at h
          exact ⟨rfl, coins, b1, rfl, ht, h.symm⟩
    · simp [hlk, hown] at h

/-! ## Claim theorems: registry -/

/-- C1: a `Register(da_address)` call for a DA address that already has an
`allowed_sequencers` entry fails with `AlreadyRegistered`, and the registry
state (allowed_sequencers, coins_to_lock, preferred_sequencer) and all bank
balances are unchanged: the resulting state is exactly the pre-call state. -/
theorem register_already_registered_rejects (st : RegistryState) (da : DaAddress)
    (sender : RollupAddress) (h : (lookupAL st.allowed_sequencers da).isSome = true) :
    applyCall st sender (.Register da) = (st, some .AlreadyRegistered) := by
  simp [applyCall, call, registerCall, register_sequencer, h]

theorem register_already_registered_rejects_witness :
    (lookupAL (RegistryState.mk 99 [(7, 5)] none (some (Coins.mk 50 1))
      []).allowed_sequencers 7).isSome = true ∧
    applyCall (RegistryState.mk 99 [(7, 5)] none (some (Coins.mk 50 1)) []) 5 (.Register 7)
      = (RegistryState.mk 99 [(7, 5)] none (some (Coins.mk 50 1)) [],
         some .AlreadyRegistered) :=
  ⟨by decide, register_already_registered_rejects _ 7 5 (by decide)⟩

/-- C2 counterexample: with no existing mapping for the DA address and a bond
configured, the `Register` call nevertheless fails when the caller balance
does not cover the bond, contradicting the claim that the call succeeds under
those two conditions alone. -/
theorem register_fresh_claim_counterexample :
    lookupAL (RegistryState.mk 99 [] none (some (Coins.mk 1 0))
      []).allowed_sequencers 7 = none ∧
    (RegistryState.mk 99 [] none (some (Coins.mk 1 0)) []).coins_to_lock
      = some (Coins.mk 1 0) ∧
    applyCall (RegistryState.mk 99 [] none (some (Coins.mk 1 0)) []) 5 (.Register 7)
      = (RegistryState.mk 99 [] none (some (Coins.mk 1 0)) [],
         some .InsufficientFunds) := by
  refine ⟨rfl, rfl, ?_⟩
  decide

/-- C2 (amended): a `Register(da_address)` call with no existing mapping, a
configured bond, and a caller balance covering the bond succeeds, makes the
new bank state exactly the result of transferring the bond from the caller to
the module address, inserts the mapping `da_address -> caller`, and (when the
caller is distinct from the module address) debits the caller and credits the
module address by exactly the bond amount. -/
theorem register_fresh_succeeds (st : RegistryState) (da : DaAddress)
    (sender : RollupAddress) (coins : Coins)
    (hnew : lookupAL st.allowed_sequencers da = none)
    (hcfg : st.coins_to_lock = some coins)
    (hbal : coins.amount ≤ getBalance st.bank coins.token_address sender) :
    ∃ b2, transfer_from st.bank sender st.address coins = some b2 ∧
      applyCall st sender (.Register da) =
        ({ st with bank := b2,
                   allowed_sequencers := setAL st.allowed_sequencers da sender }, none) ∧
      lookupAL (setAL st.allowed_sequencers da sender) da = some sender ∧
      (sender ≠ st.address →
        getBalance b2 coins.token_address sender + coins.amount
            = getBalance st.bank coins.token_address sender ∧
        getBalance b2 coins.token_address st.address
            = getBalance st.bank coins.token_address st.address + coins.amount) := by
  have ht : transfer_from st.bank sender st.address coins
      = some (setAL (setAL st.bank (coins.token_address, sender)
          (getBalance st.bank coins.token_address sender - coins.amount))
          (coins.token_address, st.address)
          (getBalance (setAL st.bank (coins.token_address, sender)
            (getBalance st.bank coins.token_address sender - coins.amount))
            coins.token_address st.address + coins.amount)) := by
    simp [transfer_from, hbal]
  refine ⟨_, ht, ?_, lookupAL_setAL_self _ _ _, ?_⟩
  · simp [applyCall, call, registerCall, register_sequencer, hnew, hcfg, ht]
  · intro hne
    have hne1 : ((coins.token_address, sender) : Nat × RollupAddress)
        ≠ (coins.token_address, st.address) := by simp [Prod.ext_iff, hne]
    have hne2 : ((coins.token_address, st.address) : Nat × RollupAddress)
        ≠ (coins.token_address, sender) := by
      simp [Prod.ext_iff]; intro hcon; exact hne hcon.symm
    constructor
    · rw [getBalance_setAL_ne _ _ _ _ _ _ hne1, getBalance_setAL_self,
        Nat.sub_add_cancel hbal]
    · rw [getBalance_setAL_self, getBalance_setAL_ne _ _ _ _ _ _ hne2]

theorem register_fresh_succeeds_witness :
    lookupAL (RegistryState.mk 99 [] none (some (Coins.mk 50 1))
      [((1, 5), 100)]).allowed_sequencers 7 = none ∧
    (RegistryState.mk 99 [] none (some (Coins.mk 50 1))
      [((1, 5), 100)]).coins_to_lock = some (Coins.mk 50 1) ∧
    (Coins.mk 50 1).amount ≤ getBalance (RegistryState.mk 99 [] none
      (some (Coins.mk 50 1)) [((1, 5), 100)]).bank (Coins.mk 50 1).token_address 5 ∧
    ∃ b2, transfer_from (RegistryState.mk 99 [] none (some (Coins.mk 50 1))
        [((1, 5), 100)]).bank 5 (RegistryState.mk 99 [] none (some (Coins.mk 50 1))
        [((1, 5), 100)]).address (Coins.mk 50 1) = some b2 ∧
      applyCall (RegistryState.mk 99 [] none (some (Coins.mk 50 1))
          [((1, 5), 100)]) 5 (.Register 7) =
        ({ RegistryState.mk 99 [] none (some (Coins.mk 50 1)) [((1, 5), 100)] with
            bank := b2,
            allowed_sequencers := setAL (RegistryState.mk 99 [] none
              (some (Coins.mk 50 1)) [((1, 5), 100)]).allowed_sequencers 7 5 }, none) ∧
      lookupAL (setAL (RegistryState.mk 99 [] none (some (Coins.mk 50 1))
        [((1, 5), 100)]).allowed_sequencers 7 5) 7 = some 5 ∧
      ((5 : RollupAddress) ≠ (RegistryState.mk 99 [] none (some (Coins.mk 50 1))
          [((1, 5), 100)]).address →
        getBalance b2 (Coins.mk 50 1).token_address 5 + (Coins.mk 50 1).amount
            = getBalance (RegistryState.mk 99 [] none (some (Coins.mk 50 1))
              [((1, 5), 100)]).bank (Coins.mk 50 1).token_address 5 ∧
        getBalance b2 (Coins.mk 50 1).token_address (RegistryState.mk 99 [] none
            (some (Coins.mk 50 1)) [((1, 5), 100)]).address
            = getBalance (RegistryState.mk 99 [] none (some (Coins.mk 50 1))
              [((1, 5), 100)]).bank (Coins.mk 50 1).token_address
              (RegistryState.mk 99 [] none (some (Coins.mk 50 1))
                [((1, 5), 100)]).address + (Coins.mk 50 1).amount) :=
  ⟨by decide, rfl, by decide,
    register_fresh_succeeds _ 7 5 (Coins.mk 50 1) (by decide) rfl (by decide)⟩

/-- C5: a successful `Register(da_address)` followed by a successful
`Exit(da_address)` by the same caller restores the caller balance in every
token to its pre-registration amount, and afterwards the DA address has no
`allowed_sequencers` entry. -/
theorem register_then_exit_restores (st st1 st2 : RegistryState) (da : DaAddress)
    (sender : RollupAddress)
    (h1 : applyCall st sender (.Register da) = (st1, none))
    (h2 : applyCall st1 sender (.Exit da) = (st2, none)) :
    (∀ tok, getBalance st2.bank tok sender = getBalance st.bank tok sender) ∧
    lookupAL st2.allowed_sequencers da = none := by
  obtain ⟨-, coins, b1, hcfg, htr1, hst1⟩ := applyCall_register_ok _ _ _ _ h1
  obtain ⟨-, coins2, b2, hc2, htr2, hst2⟩ := applyCall_exit_ok _ _ _ _ h2
  have hcoins : coins2 = coins := by
    rw [hst1] at hc2
    simp only [RegistryState.coins_to_lock] at hc2
    rw [hcfg] at hc2
    exact (Option.some.inj hc2).symm
  constructor
  · intro tok
    rw [hst2]
    simp only [RegistryState.bank]
    rw [hst1] at htr2
    simp only [RegistryState.bank, RegistryState.address] at htr2
    exact transfer_from_roundtrip _ _ _ _ _ _ htr1 (hcoins ▸ htr2) tok
  · rw [hst2, hst1]
    simp only [RegistryState.allowed_sequencers]
    exact lookupAL_removeAL_self _ _

theorem register_then_exit_restores_witness :
    applyCall (RegistryState.mk 99 [] none (some (Coins.mk 50 1)) [((1, 5), 100)]) 5
        (.Register 7)
      = (RegistryState.mk 99 [(7, 5)] none (some (Coins.mk 50 1))
          [((1, 5), 50), ((1, 99), 50)], none) ∧
    applyCall (RegistryState.mk 99 [(7, 5)] none (some (Coins.mk 50 1))
        [((1, 5), 50), ((1, 99), 50)]) 5 (.Exit 7)
      = (RegistryState.mk 99 [] none (some (Coins.mk 50 1))
          [((1, 5), 100), ((1, 99), 0)], none) ∧
    ((∀ tok, getBalance (RegistryState.mk 99 [] none (some (Coins.mk 50 1))
        [((1, 5), 100), ((1, 99), 0)]).bank tok 5
      = getBalance (RegistryState.mk 99 [] none (some (Coins.mk 50 1))
        [((1, 5), 100)]).bank tok 5) ∧
     lookupAL (RegistryState.mk 99 [] none (some (Coins.mk 50 1))
        [((1, 5), 100), ((1, 99), 0)]).allowed_sequencers 7 = none) :=
  ⟨by decide, by decide,
    register_then_exit_restores
      (RegistryState.mk 99 [] none (some (Coins.mk 50 1)) [((1, 5), 100)])
      (RegistryState.mk 99 [(7, 5)] none (some (Coins.mk 50 1))
        [((1, 5), 50), ((1, 99), 50)])
      (RegistryState.mk 99 [] none (some (Coins.mk 50 1))
        [((1, 5), 100), ((1, 99), 0)])
      7 5 (by decide) (by decide)⟩

/-- C8: `is_sender_allowed` returns true exactly when the DA address has an
entry in the `allowed_sequencers` map. -/
theorem is_sender_allowed_iff_registered (st : RegistryState) (a : DaAddress) :
    is_sender_allowed st a = true ↔ ∃ r, lookupAL st.allowed_sequencers a = some r := by
  simp [is_sender_allowed, Option.isSome_iff_exists]

/-- C9: no registry call message mutates the `preferred_sequencer` state
value: after any `Register` or `Exit` call, successful or not, the preferred
sequencer equals its pre-call value. -/
theorem call_preserves_preferred_sequencer (st : RegistryState)
    (sender : RollupAddress) (m : CallMessage) :
    (applyCall st sender m).1.preferred_sequencer = st.preferred_sequencer := by
  cases m with
  | Register da =>
    unfold applyCall call registerCall register_sequencer
    by_cases hlk : (lookupAL st.allowed_sequencers da).isSome
    · simp [hlk]
    · cases hc : st.coins_to_lock with
      | none => simp [hlk, hc]
      | some coins =>
        cases ht : transfer_from st.bank sender st.address coins with
        | none => simp [hlk, hc, ht]
        | some b2 => simp [hlk, hc, ht]
  | Exit da =>
    unfold applyCall call exitCall
    cases hlk : lookupAL st.allowed_sequencers da with
    | none => simp [hlk]
    | some owner =>
      by_cases hown : owner = sender
      · cases hc : st.coins_to_lock with
        | none => simp [hlk, hown, hc]
        | some coins =>
          cases ht : transfer_from st.bank st.address sender coins with
          | none => simp [hlk, hown, hc, ht]
          | some b2 => simp [hlk, hown, hc, ht]
      · simp [hlk, hown]

/-- C10: `get_preferred_sequencer_rollup_address` panics (embedded as the
error carrying the `expect` message) whenever a preferred sequencer is set
but absent from `allowed_sequencers`; whenever the set preferred sequencer is
registered it returns `some` of its rollup address; and it returns `ok none`
exactly when no preferred sequencer is set. -/
theorem get_preferred_rollup_address_spec (st : RegistryState) :
    (∀ da, st.preferred_sequencer = some da →
      lookupAL st.allowed_sequencers da = none →
      get_preferred_sequencer_rollup_address st
        = .error "Preferred Sequencer must have known address on rollup") ∧
    (∀ da r, st.preferred_sequencer = some da →
      lookupAL st.allowed_sequencers da = some r →
      get_preferred_sequencer_rollup_address st = .ok (some r)) ∧
    (get_preferred_sequencer_rollup_address st = .ok none ↔
      st.preferred_sequencer = none) := by
  refine ⟨?_, ?_, ?_⟩
  · intro da hp hlk
    simp [get_preferred_sequencer_rollup_address, hp, hlk]
  · intro da r hp hlk
    simp [get_preferred_sequencer_rollup_address, hp, hlk]
  · cases hp : st.preferred_sequencer with
    | none => simp [get_preferred_sequencer_rollup_address, hp]
    | some da =>
      cases hlk : lookupAL st.allowed_sequencers da with
      | none => simp [get_preferred_sequencer_rollup_address, hp, hlk]
      | some r => simp [get_preferred_sequencer_rollup_address, hp, hlk]

theorem get_preferred_rollup_address_spec_witness :
    get_preferred_sequencer_rollup_address
        (RegistryState.mk 99 [] (some 7) none [])
      = .error "Preferred Sequencer must have known address on rollup" ∧
    get_preferred_sequencer_rollup_address
        (RegistryState.mk 99 [(7, 5)] (some 7) none []) = .ok (some 5) ∧
    (get_preferred_sequencer_rollup_address
        (RegistryState.mk 99 [] none none []) = .ok none ↔
      (RegistryState.mk 99 [] none none []).preferred_sequencer = none) :=
  ⟨(get_preferred_rollup_address_spec _).1 7 rfl (by decide),
   (get_preferred_rollup_address_spec _).2.1 7 5 rfl (by decide),
   (get_preferred_rollup_address_spec _).2.2⟩

/-! ## Block producer (spec §4.2) -/

/-- Modelled from the spec: a soft confirmation produced by the Block
Producer (crates/sequencer/src/sequencer.rs is not under src/): a height, the
ordered applied transactions, and the resulting state root. -/
structure Block where
  height : Nat
  txs : List Nat
  state_root : Nat
deriving DecidableEq, Repr

/-- Height of the last persisted block, zero for an empty log ("read highest
height" on the persisted block log). -/
def lastHeight : List Block → Nat
  | [] => 0
  | [b] => b.height
  | _ :: b :: rest => lastHeight (b :: rest)

/-- Modelled from the spec: the Block Producer state (not under src/): the
durable append-only block log and the soft confirmation assembled by the
state-transition call but not yet persisted (volatile, lost on a crash). -/
structure ProducerState where
  log : List Block
  pending : Option Block
deriving DecidableEq, Repr

/-- Modelled from the spec: one transition of the Block Producer loop
(not under src/). `assemble` runs the state-transition function and assigns
height `lastHeight + 1`, re-derived from the last persisted block; `persist`
atomically appends the assembled block to the durable log; `crash` loses the
volatile pending block, after which recovery re-derives the next height from
the persisted log. -/
inductive ProducerStep : ProducerState → ProducerState → Prop where
  | assemble (st : ProducerState) (txs : List Nat) (root : Nat)
      (h : st.pending = none) :
      ProducerStep st
        { st with pending := some (Block.mk (lastHeight st.log + 1) txs root) }
  | persist (st : ProducerState) (b : Block) (h : st.pending = some b) :
      ProducerStep st { log := st.log ++ [b], pending := none }
  | crash (st : ProducerState) :
      ProducerStep st { log := st.log, pending := none }

/-- The producer starts with an empty persisted log and nothing assembled. -/
def initProducer : ProducerState := { log := [], pending := none }

/-- States of the production loop reachable from the initial state, crashes
included. -/
def ProducerReachable : ProducerState → Prop :=
  Relation.ReflTransGen ProducerStep initProducer

theorem lastHeight_append_single (l : List Block) (b : Block) :
    lastHeight (l ++ [b]) = b.height := by
  induction l with
  | nil => rfl
  | cons a l ih =>
    cases l with
    | nil => rfl
    | cons c l2 => simpa [lastHeight] using ih

theorem lastHeight_heights (l : List Block)
    (h : l.map Block.height = List.range' 1 l.length) : lastHeight l = l.length := by
  induction l using List.reverseRecOn with
  | nil => rfl
  | append_singleton l2 b ih =>
    rw [List.map_append, List.length_append] at h
    simp only [List.map_cons, List.map_nil, List.length_cons, List.length_nil,
      Nat.zero_add] at h
    rw [List.range'_concat] at h
    have hlen : (l2.map Block.height).length = (List.range' 1 l2.length).length := by
      simp
    obtain ⟨h1, h2⟩ := List.append_inj h hlen
    have hb : b.height = 1 + l2.length := by simpa using h2
    have hlen2 : (l2 ++ [b]).length = l2.length + 1 := by simp
    rw [lastHeight_append_single, hb, hlen2]
    omega

/-- The inductive invariant of the production loop: persisted heights are
exactly 1, 2, ..., n in order, and any assembled-but-unpersisted block has
height exactly one past the last persisted height. -/
def ProducerInv (st : ProducerState) : Prop :=
  st.log.map Block.height = List.range' 1 st.log.length ∧
  ∀ b, st.pending = some b → b.height = lastHeight st.log + 1

theorem producerInv_of_reachable (st : ProducerState) (h : ProducerReachable st) :
    ProducerInv st := by
  induction h with
  | refl => exact ⟨rfl, by intro b hb; simp [initProducer] at hb⟩
  | @tail mid fin hsteps hstep ih =>
    cases hstep with
    | assemble txs root hp =>
      refine ⟨ih.1, ?_⟩
      intro b hb
      simp only [Option.some.injEq] at hb
      rw [← hb]
    | persist b hp =>
      have hb := ih.2 b hp
      have hlast := lastHeight_heights mid.log ih.1
      refine ⟨?_, by intro b2 hb2; simp at hb2⟩
      show (mid.log ++ [b]).map Block.height = List.range' 1 (mid.log ++ [b]).length
      have hlen2 : (mid.log ++ [b]).length = mid.log.length + 1 := by simp
      rw [List.map_append, hlen2, List.range'_concat, ih.1, List.map_cons,
        List.map_nil, hb, hlast]
      simp [Nat.add_comm]
    | crash =>
      exact ⟨ih.1, by intro b hb; simp at hb⟩

/-- C3: in every reachable state of the production loop (crashes between the
state-transition call and persistence included) the persisted heights are
exactly 1, 2, ..., n with no height skipped or assigned twice; any pending
block and any block a step persists have height exactly the last persisted
height plus one, re-derived from the persisted log. -/
theorem producer_height_invariant (st : ProducerState) (h : ProducerReachable st) :
    st.log.map Block.height = List.range' 1 st.log.length ∧
    (∀ b, st.pending = some b → b.height = lastHeight st.log + 1) ∧
    (∀ st2 b, ProducerStep st st2 → st2.log = st.log ++ [b] →
      b.height = lastHeight st.log + 1) := by
  obtain ⟨h1, h2⟩ := producerInv_of_reachable st h
  refine ⟨h1, h2, ?_⟩
  intro st2 b hstep hlog
  cases hstep with
  | assemble txs root hp =>
    exfalso
    have hlen : st.log.length = (st.log ++ [b]).length := by rw [← hlog]
    simp at hlen
  | persist b2 hp =>
    have hb2 : b2 = b := by
      have hinj := List.append_inj_right hlog (by rfl)
      simpa using hinj
    rw [← hb2]
    exact h2 b2 hp
  | crash =>
    exfalso
    have hlen : st.log.length = (st.log ++ [b]).length := by rw [← hlog]
    simp at hlen

theorem producer_height_invariant_witness :
    ProducerReachable (ProducerState.mk [Block.mk 1 [42] 11] none) ∧
    ((ProducerState.mk [Block.mk 1 [42] 11] none).log.map Block.height
        = List.range' 1 (ProducerState.mk [Block.mk 1 [42] 11] none).log.length ∧
      (∀ b, (ProducerState.mk [Block.mk 1 [42] 11] none).pending = some b →
        b.height = lastHeight (ProducerState.mk [Block.mk 1 [42] 11] none).log + 1) ∧
      (∀ st2 b, ProducerStep (ProducerState.mk [Block.mk 1 [42] 11] none) st2 →
        st2.log = (ProducerState.mk [Block.mk 1 [42] 11] none).log ++ [b] →
        b.height = lastHeight (ProducerState.mk [Block.mk 1 [42] 11] none).log + 1)) :=
  have hreach : ProducerReachable (ProducerState.mk [Block.mk 1 [42] 11] none) :=
    Relation.ReflTransGen.tail
      (Relation.ReflTransGen.tail Relation.ReflTransGen.refl
        (ProducerStep.assemble initProducer [42] 11 rfl))
      (ProducerStep.persist (ProducerState.mk [] (some (Block.mk 1 [42] 11)))
        (Block.mk 1 [42] 11) rfl)
  ⟨hreach, producer_height_invariant _ hreach⟩

/-! ## Commitment controller (spec §4.3) -/

/-- Modelled from the spec: a commitment of the Commitment Controller
(crates/sequencer/src/commitment_controller.rs is not under src/), covering
the contiguous heights from `start` to `end_` inclusive (selected as
`[cursor+1, head_height]`, with the cursor advanced to `end`). -/
structure CommitRange where
  start : Nat
  end_ : Nat
deriving DecidableEq, Repr

/-- Modelled from the spec: the deterministic blob identifier derived from
the range bounds, which makes DA submission idempotent. -/
def blobId (r : CommitRange) : Nat × Nat := (r.start, r.end_)

/-- Modelled from the spec: submitting a blob to the DA layer; an identifier
already present is a safe no-op, so a retried submission cannot post a
logically distinct second blob. -/
def submitBlob (da : List (Nat × Nat)) (id : Nat × Nat) : List (Nat × Nat) :=
  if id ∈ da then da else da ++ [id]

/-- Modelled from the spec: the Commitment Controller state (not under src/):
the persisted Commitment Cursor (last fully committed height), the recorded
confirmed commitments, and the set of blob identifiers submitted to the DA
layer. -/
structure ControllerState where
  cursor : Nat
  ranges : List CommitRange
  da : List (Nat × Nat)
deriving DecidableEq, Repr

/-- Modelled from the spec: the trigger `head_height - cursor >=
min_blocks_per_commitment`. -/
def shouldCommit (cursor head minBlocks : Nat) : Bool :=
  decide (minBlocks ≤ head - cursor)

/-- Modelled from the spec: "select range `[cursor+1, head_height]`". -/
def selectRange (cursor head : Nat) : CommitRange :=
  CommitRange.mk (cursor + 1) head

/-- Modelled from the spec: one controller cadence tick at block height
`head`: when the height-delta trigger or the max-wait timer fires and there
are uncommitted heights, serialize the selected range and submit it to the
DA layer under its deterministic identifier; otherwise do nothing. -/
def tick (st : ControllerState) (head minBlocks : Nat) (timerElapsed : Bool) :
    ControllerState :=
  if (shouldCommit st.cursor head minBlocks || timerElapsed)
      && decide (st.cursor < head) then
    { st with da := submitBlob st.da (blobId (selectRange st.cursor head)) }
  else st

/-- Modelled from the spec: on confirmed DA inclusion of a range, advance the
Commitment Cursor to its end and record the commitment as a single durable
write. -/
def onConfirmed (st : ControllerState) (r : CommitRange) : ControllerState :=
  ControllerState.mk r.end_ (st.ranges ++ [r]) st.da

/-- Modelled from the spec: a controller transition is either a cadence tick
or the confirmation of an included blob whose range continues exactly at the
current cursor (the controller verifies inclusion against the DA layer
before advancing). -/
inductive ControllerStep : ControllerState → ControllerState → Prop where
  | tick (st : ControllerState) (head minBlocks : Nat) (timer : Bool) :
      ControllerStep st (tick st head minBlocks timer)
  | confirmed (st : ControllerState) (r : CommitRange)
      (hid : blobId r ∈ st.da) (hstart : r.start = st.cursor + 1)
      (hend : st.cursor < r.end_) :
      ControllerStep st (onConfirmed st r)

/-- The controller starts with nothing committed. -/
def initController : ControllerState := ControllerState.mk 0 [] []

/-- Controller states reachable from the initial state. -/
def ControllerReachable : ControllerState → Prop :=
  Relation.ReflTransGen ControllerStep initController

/-- `isChain lo rs c`: the ranges `rs` tile the heights from `lo` to `c`
consecutively, with no gap and no overlap. -/
def isChain (lo : Nat) : List CommitRange → Nat → Bool
  | [], c => decide (lo = c + 1)
  | r :: rs, c => decide (r.start = lo) && decide (lo ≤ r.end_) && isChain (r.end_ + 1) rs c

theorem isChain_append (lo c : Nat) (rs : List CommitRange) (r : CommitRange)
    (h : isChain lo rs c = true) (hs : r.start = c + 1) (hr : r.start ≤ r.end_) :
    isChain lo (rs ++ [r]) r.end_ = true := by
  induction rs generalizing lo with
  | nil =>
    simp only [isChain, decide_eq_true_eq] at h
    simp only [List.nil_append, isChain, Bool.and_eq_true, decide_eq_true_eq]
    refine ⟨⟨by omega, by omega⟩, by simp⟩
  | cons r2 rs2 ih =>
    simp only [isChain, Bool.and_eq_true, decide_eq_true_eq] at h
    simp only [List.cons_append, isChain, Bool.and_eq_true, decide_eq_true_eq]
    exact ⟨⟨h.1.1, h.1.2⟩, ih _ h.2⟩

theorem isChain_start_le (lo c : Nat) (rs : List CommitRange)
    (h : isChain lo rs c = true) :
    ∀ r ∈ rs, lo ≤ r.start := by
  induction rs generalizing lo with
  | nil => intro r hr; simp at hr
  | cons r2 rs2 ih =>
    simp only [isChain, Bool.and_eq_true, decide_eq_true_eq] at h
    obtain ⟨⟨hs, he⟩, hchain⟩ := h
    intro r hr
    rcases List.mem_cons.mp hr with hr | hr
    · subst hr; omega
    · have hge := ih _ hchain r hr
      omega

/-- Within a chain, every height between `lo` and `c` is covered by exactly
one range of the chain. -/
theorem isChain_unique_cover (rs : List CommitRange) (lo c : Nat)
    (h : isChain lo rs c = true) (hgt : Nat) (hlo : lo ≤ hgt) (hc : hgt ≤ c) :
    ∃ r, r ∈ rs ∧ (r.start ≤ hgt ∧ hgt ≤ r.end_) ∧
      ∀ r2, r2 ∈ rs → (r2.start ≤ hgt ∧ hgt ≤ r2.end_) → r2 = r := by
  induction rs generalizing lo with
  | nil =>
    simp only [isChain, decide_eq_true_eq] at h
    omega
  | cons r2 rs2 ih =>
    simp only [isChain, Bool.and_eq_true, decide_eq_true_eq] at h
    obtain ⟨⟨hstart, hle⟩, hchain⟩ := h
    by_cases hcov : hgt ≤ r2.end_
    · refine ⟨r2, List.mem_cons_self _ _, ⟨by omega, hcov⟩, ?_⟩
      intro r3 hr3 hcov3
      obtain ⟨hc31, hc32⟩ := hcov3
      rcases List.mem_cons.mp hr3 with hr3 | hr3
      · exact hr3
      · exfalso
        have hge := isChain_start_le _ _ _ hchain r3 hr3
        omega
    · obtain ⟨r3, hr3, hcov3, huniq⟩ := ih _ hchain (by omega)
      refine ⟨r3, List.mem_cons_of_mem _ hr3, hcov3, ?_⟩
      intro r4 hr4 hcov4
      rcases List.mem_cons.mp hr4 with hr4 | hr4
      · exfalso
        obtain ⟨hc41, hc42⟩ := hcov4
        subst hr4
        omega
      · exact huniq r4 hr4 hcov4

theorem controllerInv_of_reachable (st : ControllerState)
    (h : ControllerReachable st) : isChain 1 st.ranges st.cursor = true := by
  induction h with
  | refl => simp [initController, isChain]
  | @tail mid fin hsteps hstep ih =>
    cases hstep with
    | tick head minBlocks timer =>
      unfold tick
      split
      · exact ih
      · exact ih
    | confirmed r hid hstart hend =>
      exact isChain_append _ _ _ _ ih hstart (by omega)

theorem mem_submitBlob (da : List (Nat × Nat)) (id : Nat × Nat) :
    id ∈ submitBlob da id := by
  unfold submitBlob
  by_cases hmem : id ∈ da
  · simp only [hmem, if_pos]
  · simp [hmem]

theorem submitBlob_mem_noop (da : List (Nat × Nat)) (id : Nat × Nat)
    (h : id ∈ da) : submitBlob da id = da := by
  simp [submitBlob, h]

/-- C4: in every reachable controller state the confirmed commitments
partition the interval from 1 to the committed cursor: every height up to
the cursor lies in exactly one commitment (no gap, no overlap); and
resubmitting a blob whose deterministic identifier is already on the DA
layer is a no-op, so a repeated tick never posts a second distinct blob. -/
theorem commitment_ranges_partition (st : ControllerState)
    (h : ControllerReachable st) :
    (∀ hgt, 1 ≤ hgt → hgt ≤ st.cursor →
      ∃ r, r ∈ st.ranges ∧ (r.start ≤ hgt ∧ hgt ≤ r.end_) ∧
        ∀ r2, r2 ∈ st.ranges → (r2.start ≤ hgt ∧ hgt ≤ r2.end_) → r2 = r) ∧
    (∀ id, id ∈ st.da → submitBlob st.da id = st.da) ∧
    (∀ head minBlocks timer,
      tick (tick st head minBlocks timer) head minBlocks timer
        = tick st head minBlocks timer) := by
  refine ⟨?_, ?_, ?_⟩
  · intro hgt h1 h2
    exact isChain_unique_cover _ _ _ (controllerInv_of_reachable st h) hgt h1 h2
  · intro id hid
    exact submitBlob_mem_noop _ _ hid
  · intro head minBlocks timer
    unfold tick
    by_cases hc : ((shouldCommit st.cursor head minBlocks || timer)
        && decide (st.cursor < head)) = true
    · simp [hc, submitBlob_mem_noop _ _ (mem_submitBlob st.da _)]
    · simp [hc]

theorem commitment_ranges_partition_witness :
    ControllerReachable (ControllerState.mk 3 [CommitRange.mk 1 3] [(1, 3)]) ∧
    ((∀ hgt, 1 ≤ hgt → hgt ≤ (ControllerState.mk 3 [CommitRange.mk 1 3] [(1, 3)]).cursor →
      ∃ r, r ∈ (ControllerState.mk 3 [CommitRange.mk 1 3] [(1, 3)]).ranges ∧
        (r.start ≤ hgt ∧ hgt ≤ r.end_) ∧
        ∀ r2, r2 ∈ (ControllerState.mk 3 [CommitRange.mk 1 3] [(1, 3)]).ranges →
          (r2.start ≤ hgt ∧ hgt ≤ r2.end_) → r2 = r) ∧
    (∀ id, id ∈ (ControllerState.mk 3 [CommitRange.mk 1 3] [(1, 3)]).da →
      submitBlob (ControllerState.mk 3 [CommitRange.mk 1 3] [(1, 3)]).da id
        = (ControllerState.mk 3 [CommitRange.mk 1 3] [(1, 3)]).da) ∧
    (∀ head minBlocks timer,
      tick (tick (ControllerState.mk 3 [CommitRange.mk 1 3] [(1, 3)]) head minBlocks timer)
          head minBlocks timer
        = tick (ControllerState.mk 3 [CommitRange.mk 1 3] [(1, 3)]) head minBlocks timer)) :=
  have hreach : ControllerReachable (ControllerState.mk 3 [CommitRange.mk 1 3] [(1, 3)]) :=
    Relation.ReflTransGen.tail
      (Relation.ReflTransGen.tail Relation.ReflTransGen.refl
        (ControllerStep.tick initController 3 1 false))
      (ControllerStep.confirmed (ControllerState.mk 0 [] [(1, 3)])
        (CommitRange.mk 1 3) (by decide) (by decide) (by decide))
  ⟨hreach, commitment_ranges_partition _ hreach⟩

/-- C6: with cursor 100, head 150 and `min_blocks_per_commitment` 40 the
trigger fires, the selected range starts at 101 and ends at 150, the tick
submits exactly that blob identifier, a duplicate tick before confirmation
submits nothing new, and on confirmed inclusion the cursor advances to 150
with the single commitment record appended. -/
theorem commitment_scenario_cursor_100 :
    shouldCommit 100 150 40 = true ∧
    selectRange 100 150 = CommitRange.mk 101 150 ∧
    tick (ControllerState.mk 100 [CommitRange.mk 1 100] []) 150 40 false
      = ControllerState.mk 100 [CommitRange.mk 1 100] [(101, 150)] ∧
    tick (tick (ControllerState.mk 100 [CommitRange.mk 1 100] []) 150 40 false)
        150 40 false
      = tick (ControllerState.mk 100 [CommitRange.mk 1 100] []) 150 40 false ∧
    onConfirmed (ControllerState.mk 100 [CommitRange.mk 1 100] [(101, 150)])
        (CommitRange.mk 101 150)
      = ControllerState.mk 150 [CommitRange.mk 1 100, CommitRange.mk 101 150]
          [(101, 150)] := by
  refine ⟨rfl, rfl, by decide, by decide, by decide⟩

/-! ## Mempool batch selection (spec §4.1) -/

/-- Modelled from the spec: a mempool transaction
(crates/sequencer/src/mempool.rs is not under src/): sender, nonce and fee. -/
structure MemTx where
  sender : Nat
  nonce : Nat
  fee : Nat
deriving DecidableEq, Repr

/-- Modelled from the spec: a mempool entry wraps a transaction with its
admission timestamp. -/
structure MemEntry where
  tx : MemTx
  timestamp : Nat
deriving DecidableEq, Repr

/-- Modelled from the spec: an entry is ready when it is the front (lowest
pending nonce) of the chain of entries of its sender. -/
def isFront (pool : List MemEntry) (e : MemEntry) : Bool :=
  pool.all fun e2 => decide (e2.tx.sender = e.tx.sender → e.tx.nonce ≤ e2.tx.nonce)

/-- Modelled from the spec: `a` outranks `b` when its fee is higher, a fee
tie being broken by the earlier admission timestamp (FIFO fairness). -/
def outranks (a b : MemEntry) : Bool :=
  decide (b.tx.fee < a.tx.fee)
    || (decide (a.tx.fee = b.tx.fee) && decide (a.timestamp < b.timestamp))

/-- Modelled from the spec: among the ready (front-of-chain) entries, pick
the highest-ranked one. -/
def pickBest (pool : List MemEntry) : Option MemEntry :=
  (pool.filter (isFront pool)).foldl
    (fun acc e =>
      match acc with
      | none => some e
      | some a => if outranks e a then some e else some a)
    none

def removeEntry : List MemEntry → MemEntry → List MemEntry
  | [], _ => []
  | e2 :: rest, e => if e2 = e then rest else e2 :: removeEntry rest e

/-- Modelled from the spec: `next_batch` repeatedly consumes the
highest-ranked ready entry (consuming the front of a sender chain makes its
next nonce eligible) until the item bound is reached or no entry is ready. -/
def next_batch (pool : List MemEntry) (max_items : Nat) : List MemTx :=
  match max_items with
  | 0 => []
  | m + 1 =>
    match pickBest pool with
    | none => []
    | some e => e.tx :: next_batch (removeEntry pool e) m

/-- C7: with the mempool holding A(nonce 0, fee 10), A(nonce 1, fee 5) and
B(nonce 0, fee 8) and a bound of 2 items, selection takes A(0) first (the
highest-fee ready entry), A(1) is not ready while A(0) is pending, and B(0)
is taken second as the highest-fee remaining ready entry, so the batch is
A(0) then B(0). -/
theorem mempool_scenario_batch :
    isFront [MemEntry.mk (MemTx.mk 0 0 10) 0, MemEntry.mk (MemTx.mk 0 1 5) 1,
        MemEntry.mk (MemTx.mk 1 0 8) 2] (MemEntry.mk (MemTx.mk 0 1 5) 1) = false ∧
    pickBest [MemEntry.mk (MemTx.mk 0 0 10) 0, MemEntry.mk (MemTx.mk 0 1 5) 1,
        MemEntry.mk (MemTx.mk 1 0 8) 2] = some (MemEntry.mk (MemTx.mk 0 0 10) 0) ∧
    pickBest [MemEntry.mk (MemTx.mk 0 1 5) 1, MemEntry.mk (MemTx.mk 1 0 8) 2]
      = some (MemEntry.mk (MemTx.mk 1 0 8) 2) ∧
    next_batch [MemEntry.mk (MemTx.mk 0 0 10) 0, MemEntry.mk (MemTx.mk 0 1 5) 1,
        MemEntry.mk (MemTx.mk 1 0 8) 2] 2
      = [MemTx.mk 0 0 10, MemTx.mk 1 0 8] := by
  refine ⟨by decide, by decide, by decide, by decide⟩

end RollupSpec
